import Mathlib

/-!
Verification of the market-data aggregation core of the gembot repository.

Part 1 embeds `funding_rates_stats.py` (the snapshot ranking engine):
Python dicts of funding rates are modelled as association lists in
insertion (enumeration) order with unique keys, funding-rate floats as
integers (the ranking logic only compares, subtracts and tests signs, so
any linearly ordered ring is a faithful carrier), and Python's stable
`sorted` as `List.mergeSort`.

Part 2 embeds `streamlit_app.py` (the per-instrument time-series window
store): prices and rates as rationals, timestamps as integer seconds,
`Option` for fallible fetch results.
-/

namespace Gembot

/-- A funding snapshot: a Python dict from symbol to rate, in insertion
order. -/
abbrev Snapshot := List (String × Int)

/-- The comparison used by `sorted(rates.items(), key=lambda x: x[1],
reverse=reverse)`. -/
def pyLe (reverse : Bool) (a b : String × Int) : Bool :=
  if reverse then decide (b.2 ≤ a.2) else decide (a.2 ≤ b.2)

/-- Python's `sorted` on (symbol, value) pairs by value: a stable sort. -/
def pySorted (reverse : Bool) (l : List (String × Int)) : List (String × Int) :=
  l.mergeSort (pyLe reverse)

/-- `BinanceFundingRateTracker.get_top_n`: sort the snapshot by rate
(descending when `reverse`), take the first `n`. -/
def get_top_n (rates : Snapshot) (n : Nat) (reverse : Bool) : Snapshot :=
  (pySorted reverse rates).take n

/-- The `changes` dict built by `get_biggest_changes`: for each symbol of
`current` also present in `previous`, the delta `rate - previous[symbol]`,
kept when its sign matches `increasing`. -/
def changesOf (current previous : Snapshot) (increasing : Bool) : Snapshot :=
  current.filterMap fun sr =>
    match previous.lookup sr.1 with
    | some p =>
        if (increasing && decide (0 < sr.2 - p)) || (!increasing && decide (sr.2 - p < 0))
        then some (sr.1, sr.2 - p) else none
    | none => none

/-- `BinanceFundingRateTracker.get_biggest_changes`: build the `changes`
dict, sort by change with `reverse=increasing`, take the first `n`. -/
def get_biggest_changes (current previous : Snapshot) (n : Nat)
    (increasing : Bool) : Snapshot :=
  (pySorted increasing (changesOf current previous increasing)).take n

/-- The JSON record written by `run_task` (the chart fields the
presentation layer reads). -/
structure Stats where
  timestamp : String
  highest_rates : Snapshot
  lowest_rates : Snapshot
  biggest_increases : Snapshot
  biggest_decreases : Snapshot
  previous_rates : Snapshot
deriving DecidableEq

/-- The mutable state of a `BinanceFundingRateTracker`: the two instance
attributes plus the persisted JSON file (`none` when absent). -/
structure TrackerState where
  previous_rates : Snapshot
  current_rates : Snapshot
  data_file : Option Stats
deriving DecidableEq

/-- `BinanceFundingRateTracker.run_task`, with the fetch result and
timestamp passed in. `self.current_rates` is assigned the fetch result
first; an empty result then aborts the cycle; otherwise the four lists
are computed (delta lists only when a previous snapshot exists), the
stats are written to the file, and `previous_rates` becomes the current
snapshot. -/
def run_task (fetched : Snapshot) (ts : String) (st : TrackerState) :
    TrackerState :=
  let st := { st with current_rates := fetched }
  if st.current_rates.isEmpty then st
  else
    let highest_rates := get_top_n st.current_rates 5 true
    let lowest_rates := get_top_n st.current_rates 5 false
    let increasing_rates :=
      if st.previous_rates.isEmpty then []
      else get_biggest_changes st.current_rates st.previous_rates 5 true
    let decreasing_rates :=
      if st.previous_rates.isEmpty then []
      else get_biggest_changes st.current_rates st.previous_rates 5 false
    let stats : Stats :=
      { timestamp := ts
        highest_rates := highest_rates
        lowest_rates := lowest_rates
        biggest_increases := increasing_rates
        biggest_decreases := decreasing_rates
        previous_rates := st.current_rates }
    { st with data_file := some stats, previous_rates := st.current_rates }

/-! Helper lemmas about the Python sort. -/

theorem pyLe_trans (rev : Bool) : ∀ a b c, pyLe rev a b = true →
    pyLe rev b c = true → pyLe rev a c = true := by
  intro a b c hab hbc
  cases rev <;> simp [pyLe] at * <;> omega

theorem pyLe_total (rev : Bool) : ∀ a b, (pyLe rev a b || pyLe rev b a) = true := by
  intro a b
  cases rev <;> simp [pyLe] <;> omega

theorem pySorted_pairwise (rev : Bool) (l : List (String × Int)) :
    (pySorted rev l).Pairwise (fun a b => pyLe rev a b = true) :=
  List.sorted_mergeSort (pyLe_trans rev) (pyLe_total rev) l

theorem pySorted_perm (rev : Bool) (l : List (String × Int)) :
    (pySorted rev l).Perm l :=
  List.mergeSort_perm l (pyLe rev)

theorem pySorted_length (rev : Bool) (l : List (String × Int)) :
    (pySorted rev l).length = l.length :=
  (pySorted_perm rev l).length_eq

theorem get_top_n_pairwise (rates : Snapshot) (n : Nat) (rev : Bool) :
    (get_top_n rates n rev).Pairwise (fun a b => pyLe rev a b = true) :=
  (pySorted_pairwise rev rates).sublist (List.take_sublist n _)

theorem mem_of_mem_get_top_n {rates : Snapshot} {n : Nat} {rev : Bool}
    {e : String × Int} (h : e ∈ get_top_n rates n rev) : e ∈ rates :=
  (pySorted_perm rev rates).mem_iff.mp ((List.take_sublist n _).mem h)

/-- In an association list with unique keys, membership determines the
lookup result. -/
theorem lookup_eq_of_mem {l : List (String × Int)} {s : String} {r : Int}
    (hnd : (l.map Prod.fst).Nodup) (hm : (s, r) ∈ l) :
    l.lookup s = some r := by
  induction l with
  | nil => cases hm
  | cons a t ih =>
    simp only [List.map_cons, List.nodup_cons] at hnd
    rcases List.mem_cons.mp hm with h | h
    · subst h
      simp [List.lookup]
    · have hne : s ≠ a.1 := by
        intro he
        exact hnd.1 (he ▸ List.mem_map_of_mem Prod.fst h)
      have : (s == a.1) = false := by
        simpa using hne
      obtain ⟨k, v⟩ := a
      simp only [List.lookup]
      simp only at this
      rw [this]
      exact ih hnd.2 h

/-- Unpacking membership in the `changes` dict. -/
theorem mem_changesOf {current previous : Snapshot} {inc : Bool}
    {e : String × Int} (he : e ∈ changesOf current previous inc) :
    ∃ s r p, e = (s, r - p) ∧ (s, r) ∈ current ∧ previous.lookup s = some p ∧
      (inc = true → 0 < r - p) ∧ (inc = false → r - p < 0) := by
  unfold changesOf at he
  rw [List.mem_filterMap] at he
  obtain ⟨⟨s, r⟩, hsr, hf⟩ := he
  simp only at hf
  cases hp : previous.lookup s with
  | none => rw [hp] at hf; cases hf
  | some p =>
    rw [hp] at hf
    simp only at hf
    split at hf
    · next hcond =>
        refine ⟨s, r, p, (Option.some.inj hf).symm, hsr, hp, ?_, ?_⟩
        · intro hi; subst hi; simpa using hcond
        · intro hi; subst hi; simpa using hcond
    · next hcond => cases hf

theorem mem_of_mem_biggest_changes {current previous : Snapshot} {n : Nat}
    {inc : Bool} {e : String × Int}
    (he : e ∈ get_biggest_changes current previous n inc) :
    e ∈ changesOf current previous inc :=
  (pySorted_perm inc _).mem_iff.mp ((List.take_sublist n _).mem he)

/-- C1: for every pair of snapshots sharing at least one symbol, every
entry of `biggest_increases` is a symbol present in both snapshots with
`current[s] - previous[s]` strictly positive, and the list is sorted
descending by that delta with length at most 5; symmetrically every
entry of `biggest_decreases` has strictly negative delta, is sorted most
negative first, and the list has length at most 5. -/
theorem biggest_changes_correct (current previous : Snapshot)
    (hnd : (current.map Prod.fst).Nodup)
    (hshare : ∃ s r p, (s, r) ∈ current ∧ (s, p) ∈ previous) :
    (∀ e ∈ get_biggest_changes current previous 5 true,
      ∃ r p, current.lookup e.1 = some r ∧ previous.lookup e.1 = some p ∧
        e.2 = r - p ∧ 0 < e.2) ∧
    (get_biggest_changes current previous 5 true).Pairwise
      (fun a b => b.2 ≤ a.2) ∧
    (get_biggest_changes current previous 5 true).length ≤ 5 ∧
    (∀ e ∈ get_biggest_changes current previous 5 false,
      ∃ r p, current.lookup e.1 = some r ∧ previous.lookup e.1 = some p ∧
        e.2 = r - p ∧ e.2 < 0) ∧
    (get_biggest_changes current previous 5 false).Pairwise
      (fun a b => a.2 ≤ b.2) ∧
    (get_biggest_changes current previous 5 false).length ≤ 5 := by
  refine ⟨?_, ?_, ?_, ?_, ?_, ?_⟩
  · intro e he
    obtain ⟨s, r, p, hes, hsr, hp, hsgn, _⟩ :=
      mem_changesOf (mem_of_mem_biggest_changes he)
    subst hes
    exact ⟨r, p, lookup_eq_of_mem hnd hsr, hp, rfl, hsgn rfl⟩
  · exact ((pySorted_pairwise true _).sublist (List.take_sublist 5 _)).imp
      (by intro a b h; simpa [pyLe] using h)
  · simpa [get_biggest_changes] using
      Nat.min_le_left 5 (pySorted true (changesOf current previous true)).length
  · intro e he
    obtain ⟨s, r, p, hes, hsr, hp, _, hsgn⟩ :=
      mem_changesOf (mem_of_mem_biggest_changes he)
    subst hes
    exact ⟨r, p, lookup_eq_of_mem hnd hsr, hp, rfl, hsgn rfl⟩
  · exact ((pySorted_pairwise false _).sublist (List.take_sublist 5 _)).imp
      (by intro a b h; simpa [pyLe] using h)
  · simpa [get_biggest_changes] using
      Nat.min_le_left 5 (pySorted false (changesOf current previous false)).length

/-- C1 witness: the theorem applied at a concrete pair of snapshots. -/
theorem biggest_changes_correct_witness :
    (∀ e ∈ get_biggest_changes [("A", 3), ("B", 1)] [("A", 1), ("B", 5)] 5 true,
      ∃ r p, List.lookup e.1 [("A", 3), ("B", 1)] = some r ∧
        List.lookup e.1 [("A", 1), ("B", 5)] = some p ∧
        e.2 = r - p ∧ 0 < e.2) ∧
    (get_biggest_changes [("A", 3), ("B", 1)] [("A", 1), ("B", 5)] 5 true).Pairwise
      (fun a b => b.2 ≤ a.2) ∧
    (get_biggest_changes [("A", 3), ("B", 1)] [("A", 1), ("B", 5)] 5 true).length ≤ 5 ∧
    (∀ e ∈ get_biggest_changes [("A", 3), ("B", 1)] [("A", 1), ("B", 5)] 5 false,
      ∃ r p, List.lookup e.1 [("A", 3), ("B", 1)] = some r ∧
        List.lookup e.1 [("A", 1), ("B", 5)] = some p ∧
        e.2 = r - p ∧ e.2 < 0) ∧
    (get_biggest_changes [("A", 3), ("B", 1)] [("A", 1), ("B", 5)] 5 false).Pairwise
      (fun a b => a.2 ≤ b.2) ∧
    (get_biggest_changes [("A", 3), ("B", 1)] [("A", 1), ("B", 5)] 5 false).length ≤ 5 :=
  biggest_changes_correct [("A", 3), ("B", 1)] [("A", 1), ("B", 5)]
    (by decide) ⟨"A", 3, 1, by decide, by decide⟩

/-- C2: for every funding snapshot, the `highest` list is sorted
descending by rate and the `lowest` list ascending by rate, and each
list has length at most 5 and at most the number of symbols in the
snapshot. -/
theorem top_n_ranking_correct (rates : Snapshot) :
    (get_top_n rates 5 true).Pairwise (fun a b => b.2 ≤ a.2) ∧
    (get_top_n rates 5 false).Pairwise (fun a b => a.2 ≤ b.2) ∧
    (get_top_n rates 5 true).length ≤ 5 ∧
    (get_top_n rates 5 true).length ≤ rates.length ∧
    (get_top_n rates 5 false).length ≤ 5 ∧
    (get_top_n rates 5 false).length ≤ rates.length := by
  have hlt : (get_top_n rates 5 true).length = min 5 rates.length := by
    simp [get_top_n, pySorted_length]
  have hlf : (get_top_n rates 5 false).length = min 5 rates.length := by
    simp [get_top_n, pySorted_length]
  refine ⟨?_, ?_, ?_, ?_, ?_, ?_⟩
  · exact (get_top_n_pairwise rates 5 true).imp
      (by intro a b h; simpa [pyLe] using h)
  · exact (get_top_n_pairwise rates 5 false).imp
      (by intro a b h; simpa [pyLe] using h)
  · omega
  · omega
  · omega
  · omega

/-- In a duplicate-free list, a two-element sublist both of whose members
survive into the prefix `take n` is a sublist of that prefix. -/
theorem pair_sublist_take {α : Type} {l : List α} {a b : α} {n : Nat}
    (hnd : l.Nodup) (hsub : [a, b].Sublist l) (hb : b ∈ l.take n) :
    [a, b].Sublist (l.take n) := by
  induction l generalizing n with
  | nil => simp at hb
  | cons x t ih =>
    cases n with
    | zero => simp at hb
    | succ m =>
      rw [List.take_succ_cons] at hb ⊢
      have hnd' := List.nodup_cons.mp hnd
      cases hsub with
      | cons _ hsub' =>
        have hbt : b ∈ t := hsub'.subset (by simp)
        have hbx : b ≠ x := fun he => hnd'.1 (he ▸ hbt)
        have hbm : b ∈ t.take m := by
          rcases List.mem_cons.mp hb with h | h
          · exact absurd h hbx
          · exact h
        exact (ih hnd'.2 hsub' hbm).cons x
      | cons₂ _ hsub' =>
        have hbt : b ∈ t := List.singleton_sublist.mp hsub'
        have hbx : b ≠ a := fun he => hnd'.1 (he ▸ hbt)
        have hbm : b ∈ t.take m := by
          rcases List.mem_cons.mp hb with h | h
          · exact absurd h hbx
          · exact h
        exact (List.singleton_sublist.mpr hbm).cons₂ a

/-- C9: the rankings are stable: if two entries of the snapshot carry the
same rate, the one enumerated first in the snapshot appears before the
other in the ranked list (descending or ascending alike). -/
theorem top_n_stable_ties (rates : Snapshot) (n : Nat) (rev : Bool)
    (s1 s2 : String) (r : Int) (hnd : rates.Nodup)
    (hsub : [(s1, r), (s2, r)].Sublist rates)
    (h2 : (s2, r) ∈ get_top_n rates n rev) :
    [(s1, r), (s2, r)].Sublist (get_top_n rates n rev) := by
  have hpair : ([(s1, r), (s2, r)] : List (String × Int)).Pairwise
      (fun a b => pyLe rev a b = true) := by
    cases rev <;> simp [pyLe]
  have hsorted : [(s1, r), (s2, r)].Sublist (pySorted rev rates) :=
    List.sublist_mergeSort (pyLe_trans rev) (pyLe_total rev) hpair hsub
  have hnd2 : (pySorted rev rates).Nodup :=
    ((pySorted_perm rev rates).nodup_iff).mpr hnd
  exact pair_sublist_take hnd2 hsorted h2

/-- C9 witness: the theorem applied to a snapshot with a tie. -/
theorem top_n_stable_ties_witness :
    [(("A" : String), (5 : Int)), ("B", 5)].Sublist
      (get_top_n [("A", 5), ("B", 5), ("C", 1)] 2 true) :=
  top_n_stable_ties [("A", 5), ("B", 5), ("C", 1)] 2 true "A" "B" 5
    (by decide) (by decide)
    (by simp [get_top_n, pySorted, List.mergeSort, pyLe])

/-- C3 counterexample: on a failed (empty) fetch the claim "no engine
state is mutated" fails: `run_task` overwrites `current_rates` with the
empty fetch result before the emptiness check. -/
theorem run_task_failed_fetch_mutates_state :
    run_task [] "2025-01-01 00:00:00"
        { previous_rates := [("BTCUSDT", 1)],
          current_rates := [("ETHUSDT", 2)],
          data_file := none } ≠
      { previous_rates := [("BTCUSDT", 1)],
        current_rates := [("ETHUSDT", 2)],
        data_file := none } := by
  decide

/-- C3 (amended): on a failed (empty) fetch the cycle is skipped: no
report is produced, no persisted-state write occurs, and the retained
previous snapshot is unchanged; the only mutation is that the scratch
`current_rates` field is overwritten with the empty fetch result. -/
theorem run_task_failed_fetch_skips_cycle (fetched : Snapshot) (ts : String)
    (st : TrackerState) (h : fetched = []) :
    run_task fetched ts st = { st with current_rates := fetched } ∧
    (run_task fetched ts st).data_file = st.data_file ∧
    (run_task fetched ts st).previous_rates = st.previous_rates := by
  subst h
  exact ⟨rfl, rfl, rfl⟩

/-- C3 witness: the amended theorem applied at a concrete state. -/
theorem run_task_failed_fetch_skips_cycle_witness :
    run_task [] "t"
        { previous_rates := [("SOLUSDT", 7)],
          current_rates := [("XRPUSDT", 3)],
          data_file := none } =
      { previous_rates := [("SOLUSDT", 7)],
        current_rates := [],
        data_file := none } :=
  (run_task_failed_fetch_skips_cycle [] "t"
    { previous_rates := [("SOLUSDT", 7)],
      current_rates := [("XRPUSDT", 3)],
      data_file := none } rfl).1

/-! Part 2: the per-instrument time-series window store of
`streamlit_app.py`. Timestamps are integer seconds, prices and rates are
rationals, fallible fetches are `Option`-valued. -/

/-- `HOURS_TO_DISPLAY = 4`: the retention horizon in hours. -/
def HOURS_TO_DISPLAY : Int := 4

/-- The per-symbol session dict (the chart/running entries of the Python
dict are presentation state and are not part of the data model). -/
structure SymbolData where
  timestamps : List Int
  spot_prices : List ℚ
  futures_prices : List ℚ
  premiums : List ℚ
  funding_rates : List ℚ
  open_interest : List ℚ
  last_funding_rate : Option ℚ
  historical_data_loaded : Bool
deriving DecidableEq

/-- The funding-rate branch of `update_data`: append the fresh rate (as a
percentage) when available, else repeat the last recorded value, else 0.
The second component is the `funding_rate` local variable as returned
(`None` is only replaced in the no-history branch). -/
def appendFunding (funding_rate : Option ℚ) (d : SymbolData) :
    SymbolData × Option ℚ :=
  match funding_rate with
  | some fr =>
      ({ d with funding_rates := d.funding_rates ++ [fr * 100],
                last_funding_rate := some fr }, some fr)
  | none =>
      if !d.funding_rates.isEmpty then
        ({ d with funding_rates := d.funding_rates ++ [d.funding_rates.getLastD 0] },
         none)
      else
        ({ d with funding_rates := d.funding_rates ++ [0] }, some 0)

/-- The open-interest branch of `update_data`: same fallback scheme; the
returned `open_interest` local is re-read from the list's new last
element in the repeat branch and set to 0 in the no-history branch. -/
def appendOpenInterest (open_interest : Option ℚ) (d : SymbolData) :
    SymbolData × Option ℚ :=
  match open_interest with
  | some oi =>
      ({ d with open_interest := d.open_interest ++ [oi] }, some oi)
  | none =>
      if !d.open_interest.isEmpty then
        ({ d with open_interest := d.open_interest ++ [d.open_interest.getLastD 0] },
         some (d.open_interest.getLastD 0))
      else
        ({ d with open_interest := d.open_interest ++ [0] }, some 0)

/-- The retention-trim block at the end of `update_data`: when the series
has more than one sample and the oldest is older than
`now - HOURS_TO_DISPLAY` hours, drop every field's prefix before the
first timestamp inside the horizon (`valid_indices[0]`). -/
def trim_old (now : Int) (d : SymbolData) : SymbolData :=
  let cutoff_time := now - HOURS_TO_DISPLAY * 3600
  match d.timestamps with
  | t0 :: _ :: _ =>
      if t0 < cutoff_time then
        match d.timestamps.findIdx? (fun ts => decide (cutoff_time ≤ ts)) with
        | some start_idx =>
            { d with
              timestamps := d.timestamps.drop start_idx
              spot_prices := d.spot_prices.drop start_idx
              futures_prices := d.futures_prices.drop start_idx
              premiums := d.premiums.drop start_idx
              funding_rates := d.funding_rates.drop start_idx
              open_interest := d.open_interest.drop start_idx }
        | none => d
      else d
  | _ => d

/-- `update_data`: if either price fetch failed, do nothing and return
the raw fetch results; otherwise append one sample (prices, premium,
funding-rate and open-interest fallbacks) and trim the horizon. -/
def update_data (spot_price futures_price funding_rate open_interest : Option ℚ)
    (now : Int) (d : SymbolData) :
    SymbolData × (Option ℚ × Option ℚ × Option ℚ × Option ℚ × Option ℚ) :=
  match spot_price, futures_price with
  | some sp, some fp =>
      let premium := (fp - sp) / sp * 100
      let d1 := { d with
        timestamps := d.timestamps ++ [now]
        spot_prices := d.spot_prices ++ [sp]
        futures_prices := d.futures_prices ++ [fp]
        premiums := d.premiums ++ [premium] }
      let fstep := appendFunding funding_rate d1
      let ostep := appendOpenInterest open_interest fstep.1
      (trim_old now ostep.1, (some sp, some fp, some premium, fstep.2, ostep.2))
  | _, _ => (d, (none, none, none, funding_rate, open_interest))

/-- The inner linear scan of the nearest-timestamp join: Python's
`for i, fts in enumerate(...)` loop with running `closest_idx` and
`min_diff`; unbounded `min_diff` is modelled by the caller seeding the
scan with the first element's difference. -/
def scanFromD (ts : Int) (best m i : Nat) : List Int → Nat × Nat
  | [] => (best, m)
  | fts :: rest =>
      if (ts - fts).natAbs < m then scanFromD ts i ((ts - fts).natAbs) (i + 1) rest
      else scanFromD ts best m (i + 1) rest

/-- The `closest_idx` computed by the Python scan: 0 on an empty source
(`min_diff` stays infinite), otherwise the scan seeded by index 0. -/
def closestIdx (ts : Int) : List Int → Nat
  | [] => 0
  | fts0 :: rest => (scanFromD ts 0 ((ts - fts0).natAbs) 1 rest).1

/-- One mapped value of the nearest-timestamp join: the source value at
`closest_idx` when in range, else 0. -/
def mapSeries (timestamps src_ts : List Int) (src_vals : List ℚ) : List ℚ :=
  timestamps.map fun ts =>
    if closestIdx ts src_ts < src_vals.length then
      src_vals.getD (closestIdx ts src_ts) 0
    else 0

/-- The alignment branch of `load_historical_data`: map a secondary
series onto the primary grid, or all zeros when the source is empty. -/
def alignOnGrid (grid src_ts : List Int) (src_vals : List ℚ) : List ℚ :=
  if !src_vals.isEmpty then mapSeries grid src_ts src_vals
  else List.replicate grid.length 0

/-- `get_historical_klines`: truncate both candle lists to the shorter
length; per row keep the spot timestamp, both closes, and the premium
`(futures - spot) / spot * 100`. -/
def get_historical_klines (spot_data futures_data : List (Int × ℚ)) :
    List Int × List ℚ × List ℚ × List ℚ :=
  let min_length := min spot_data.length futures_data.length
  let rows := (spot_data.take min_length).zip (futures_data.take min_length)
  (rows.map fun row => row.1.1,
   rows.map fun row => row.1.2,
   rows.map fun row => row.2.2,
   rows.map fun row => (row.2.2 - row.1.2) / row.1.2 * 100)

/-- `get_historical_funding_rates`: timestamps and rates (as
percentages) of the fetched items. -/
def get_historical_funding_rates (data : List (Int × ℚ)) :
    List Int × List ℚ :=
  (data.map fun item => item.1, data.map fun item => item.2 * 100)

/-- `get_historical_open_interest`: timestamps and quantities of the
fetched items. -/
def get_historical_open_interest (data : List (Int × ℚ)) :
    List Int × List ℚ :=
  (data.map fun item => item.1, data.map fun item => item.2)

/-- The tail of `load_historical_data`: overwrite the last grid point of
the funding-rate and open-interest sequences with the current live
values when fetchable. -/
def overwriteLatest (funding_rate open_interest : Option ℚ)
    (d : SymbolData) : SymbolData :=
  let d1 :=
    match funding_rate with
    | some fr =>
        let d0 := { d with last_funding_rate := some fr }
        if !d0.funding_rates.isEmpty then
          { d0 with funding_rates :=
              d0.funding_rates.set (d0.funding_rates.length - 1) (fr * 100) }
        else d0
    | none => d
  match open_interest with
  | some oi =>
      if !d1.open_interest.isEmpty then
        { d1 with open_interest :=
            d1.open_interest.set (d1.open_interest.length - 1) oi }
      else d1
  | none => d1

/-- `load_historical_data`, with all fetch results passed in: on a
non-empty primary candle grid, install the grid, align funding rates and
open interest onto it by nearest timestamp, overwrite the freshest grid
point with the live values, and mark the series loaded; on an empty grid
report failure without touching the series. -/
def load_historical_data
    (spot_data futures_data funding_data oi_data : List (Int × ℚ))
    (funding_rate open_interest : Option ℚ)
    (d : SymbolData) : SymbolData × Bool :=
  if d.historical_data_loaded then (d, true)
  else
    let k := get_historical_klines spot_data futures_data
    let f := get_historical_funding_rates funding_data
    let o := get_historical_open_interest oi_data
    if !k.1.isEmpty then
      let d1 := { d with
        timestamps := k.1
        spot_prices := k.2.1
        futures_prices := k.2.2.1
        premiums := k.2.2.2
        funding_rates := alignOnGrid k.1 f.1 f.2
        open_interest := alignOnGrid k.1 o.1 o.2 }
      let d2 := overwriteLatest funding_rate open_interest d1
      ({ d2 with historical_data_loaded := true }, true)
    else (d, false)

/-- The complete-sample invariant: all six field sequences have the same
length. -/
def wellFormed (d : SymbolData) : Prop :=
  d.spot_prices.length = d.timestamps.length ∧
  d.futures_prices.length = d.timestamps.length ∧
  d.premiums.length = d.timestamps.length ∧
  d.funding_rates.length = d.timestamps.length ∧
  d.open_interest.length = d.timestamps.length

instance (d : SymbolData) : Decidable (wellFormed d) := by
  unfold wellFormed; infer_instance

/-- One polling tick of the main loop: the four fetch results and the
current time. -/
structure LiveTick where
  spot_price : Option ℚ
  futures_price : Option ℚ
  funding_rate : Option ℚ
  open_interest : Option ℚ
  now : Int
deriving DecidableEq

/-- A sequence of live appends applied to a series. -/
def applyTicks (ticks : List LiveTick) (d : SymbolData) : SymbolData :=
  ticks.foldl
    (fun d t =>
      (update_data t.spot_price t.futures_price t.funding_rate t.open_interest
        t.now d).1)
    d

/-! Helper lemmas about the live-append steps. -/

theorem appendFunding_some (v : ℚ) (d : SymbolData) :
    (appendFunding (some v) d).1 =
      { d with funding_rates := d.funding_rates ++ [v * 100],
               last_funding_rate := some v } := rfl

theorem appendFunding_none (d : SymbolData) :
    (appendFunding none d).1 =
      { d with funding_rates := d.funding_rates ++ [d.funding_rates.getLastD 0] } := by
  simp only [appendFunding]
  split
  · rfl
  · next h =>
    have he : d.funding_rates = [] := by simpa using h
    simp [he]

theorem appendOpenInterest_some (v : ℚ) (d : SymbolData) :
    (appendOpenInterest (some v) d).1 =
      { d with open_interest := d.open_interest ++ [v] } := rfl

theorem appendOpenInterest_none (d : SymbolData) :
    (appendOpenInterest none d).1 =
      { d with open_interest := d.open_interest ++ [d.open_interest.getLastD 0] } := by
  simp only [appendOpenInterest]
  split
  · rfl
  · next h =>
    have he : d.open_interest = [] := by simpa using h
    simp [he]

/-- Shape of the state after a successful append, before the trim: every
field sequence gains exactly one element, the funding-rate and
open-interest values falling back to the last recorded value (or 0) when
their fetches failed. -/
theorem update_data_some (sp fp : ℚ) (fr oi : Option ℚ) (now : Int)
    (d : SymbolData) :
    ∃ vf vo lf,
      (update_data (some sp) (some fp) fr oi now d).1 =
        trim_old now
          { timestamps := d.timestamps ++ [now]
            spot_prices := d.spot_prices ++ [sp]
            futures_prices := d.futures_prices ++ [fp]
            premiums := d.premiums ++ [(fp - sp) / sp * 100]
            funding_rates := d.funding_rates ++ [vf]
            open_interest := d.open_interest ++ [vo]
            last_funding_rate := lf
            historical_data_loaded := d.historical_data_loaded } ∧
      (fr = none → vf = d.funding_rates.getLastD 0) ∧
      (oi = none → vo = d.open_interest.getLastD 0) := by
  refine ⟨(match fr with | some f => f * 100 | none => d.funding_rates.getLastD 0),
          (match oi with | some o => o | none => d.open_interest.getLastD 0),
          (match fr with | some _ => fr | none => d.last_funding_rate),
          ?_, ?_, ?_⟩
  · simp only [update_data]
    cases fr with
    | some f =>
        rw [appendFunding_some]
        cases oi with
        | some o => rw [appendOpenInterest_some]
        | none => rw [appendOpenInterest_none]
    | none =>
        rw [appendFunding_none]
        cases oi with
        | some o => rw [appendOpenInterest_some]
        | none => rw [appendOpenInterest_none]
  · cases fr <;> simp
  · cases oi <;> simp

theorem update_data_price_unavailable
    (spot_price futures_price funding_rate open_interest : Option ℚ)
    (now : Int) (d : SymbolData)
    (h : spot_price = none ∨ futures_price = none) :
    update_data spot_price futures_price funding_rate open_interest now d =
      (d, (none, none, none, funding_rate, open_interest)) := by
  rcases h with h | h
  · subst h; cases futures_price <;> rfl
  · subst h; cases spot_price <;> rfl

/-- C6: if the spot-price or futures-price fetch is unavailable, the
append is a no-op: the series state is unchanged and no price data is
returned. -/
theorem unavailable_price_noop
    (spot_price futures_price funding_rate open_interest : Option ℚ)
    (now : Int) (d : SymbolData)
    (h : spot_price = none ∨ futures_price = none) :
    update_data spot_price futures_price funding_rate open_interest now d =
      (d, (none, none, none, funding_rate, open_interest)) :=
  update_data_price_unavailable spot_price futures_price funding_rate
    open_interest now d h

/-- C6 witness: the theorem applied at a concrete series state. -/
theorem unavailable_price_noop_witness :
    update_data none (some 5) (some 1) none 1000
        { timestamps := [900], spot_prices := [2], futures_prices := [3],
          premiums := [50], funding_rates := [1], open_interest := [7],
          last_funding_rate := none, historical_data_loaded := true } =
      ({ timestamps := [900], spot_prices := [2], futures_prices := [3],
         premiums := [50], funding_rates := [1], open_interest := [7],
         last_funding_rate := none, historical_data_loaded := true },
       (none, none, none, some 1, none)) :=
  unavailable_price_noop none (some 5) (some 1) none 1000 _ (Or.inl rfl)

/-! Helper lemmas about `findIdx?` (which models `valid_indices[0]`). -/

theorem findIdx?_drop_spec {α : Type} (p : α → Bool) :
    ∀ (l : List α) (i j : Nat), List.findIdx? p l i = some j →
      i ≤ j ∧ j - i < l.length ∧
        l.drop (j - i) = l.dropWhile (fun a => !p a) := by
  intro l
  induction l with
  | nil => intro i j h; simp [List.findIdx?] at h
  | cons x t ih =>
    intro i j h
    rw [List.findIdx?_cons] at h
    by_cases hp : p x
    · rw [if_pos hp] at h
      have hj : j = i := (Option.some.inj h).symm
      subst hj
      refine ⟨le_refl _, by simp, ?_⟩
      simp [List.dropWhile_cons, hp]
    · rw [if_neg hp] at h
      obtain ⟨h1, h2, h3⟩ := ih (i + 1) j h
      refine ⟨by omega, by simp; omega, ?_⟩
      have hji : j - i = (j - (i + 1)) + 1 := by omega
      rw [hji, List.drop_succ_cons, h3, List.dropWhile_cons]
      simp [hp]

theorem findIdx?_isSome_of_exists {α : Type} (p : α → Bool) (l : List α)
    (h : ∃ a ∈ l, p a = true) : (List.findIdx? p l).isSome := by
  cases hf : List.findIdx? p l with
  | some j => rfl
  | none =>
    obtain ⟨a, ha, hpa⟩ := h
    have := List.findIdx?_eq_none_iff.mp hf a ha
    rw [hpa] at this
    cases this

/-- The trim leaves the series alone when the oldest sample is within
the horizon (or when there are fewer than two samples). -/
theorem trim_old_no_trim (now : Int) (d : SymbolData)
    (h : ∀ t0, d.timestamps.head? = some t0 →
      now - HOURS_TO_DISPLAY * 3600 ≤ t0) :
    trim_old now d = d := by
  rcases hts : d.timestamps with _ | ⟨t0, _ | ⟨t1, r⟩⟩
  · simp [trim_old, hts]
  · simp [trim_old, hts]
  · have hge := h t0 (by rw [hts]; rfl)
    simp only [trim_old, hts]
    rw [if_neg (not_lt.mpr hge)]

/-- When the oldest of at least two samples is outside the horizon, the
trim drops the prefix of samples before the first one inside the
horizon, on every field sequence, as one batch. -/
theorem trim_old_trim (now : Int) (d : SymbolData) (t0 t1 : Int) (r : List Int)
    (hts : d.timestamps = t0 :: t1 :: r)
    (hlt : t0 < now - HOURS_TO_DISPLAY * 3600)
    (hex : ∃ a ∈ d.timestamps, now - HOURS_TO_DISPLAY * 3600 ≤ a) :
    ∃ start_idx, start_idx < d.timestamps.length ∧
      d.timestamps.drop start_idx =
        d.timestamps.dropWhile
          (fun ts => decide (ts < now - HOURS_TO_DISPLAY * 3600)) ∧
      trim_old now d = { d with
        timestamps := d.timestamps.drop start_idx
        spot_prices := d.spot_prices.drop start_idx
        futures_prices := d.futures_prices.drop start_idx
        premiums := d.premiums.drop start_idx
        funding_rates := d.funding_rates.drop start_idx
        open_interest := d.open_interest.drop start_idx } := by
  have hexb : ∃ a ∈ d.timestamps,
      (fun ts => decide (now - HOURS_TO_DISPLAY * 3600 ≤ ts)) a = true := by
    obtain ⟨a, ha, hge⟩ := hex
    exact ⟨a, ha, by simpa using hge⟩
  have hsome := findIdx?_isSome_of_exists _ d.timestamps hexb
  cases hf : d.timestamps.findIdx?
      (fun ts => decide (now - HOURS_TO_DISPLAY * 3600 ≤ ts)) with
  | none => rw [hf] at hsome; cases hsome
  | some j =>
    obtain ⟨-, hlen, hdrop⟩ := findIdx?_drop_spec _ d.timestamps 0 j hf
    rw [Nat.sub_zero] at hlen hdrop
    refine ⟨j, hlen, ?_, ?_⟩
    · rw [hdrop]
      congr 1
      funext a
      by_cases hc : now - HOURS_TO_DISPLAY * 3600 ≤ a
      · simp [hc, not_lt.mpr hc]
      · simp [hc, not_le.mp hc]
    · simp only [trim_old, hts]
      rw [if_pos hlt]
      rw [← hts, hf]

/-- C5: a live append on a series whose oldest sample has fallen outside
the retention horizon triggers one batch trim dropping exactly the
prefix of samples older than `now - H`, never emptying the series; a
series whose oldest sample is within the horizon is not trimmed. -/
theorem retention_trim_correct (sp fp : ℚ) (fr oi : Option ℚ) (now : Int)
    (d : SymbolData) (t0 : Int) (rest : List Int)
    (hts : d.timestamps = t0 :: rest) :
    (t0 < now - HOURS_TO_DISPLAY * 3600 →
      (update_data (some sp) (some fp) fr oi now d).1.timestamps =
        (d.timestamps ++ [now]).dropWhile
          (fun ts => decide (ts < now - HOURS_TO_DISPLAY * 3600)) ∧
      (update_data (some sp) (some fp) fr oi now d).1.timestamps ≠ []) ∧
    (now - HOURS_TO_DISPLAY * 3600 ≤ t0 →
      (update_data (some sp) (some fp) fr oi now d).1.timestamps =
        d.timestamps ++ [now]) := by
  obtain ⟨vf, vo, lf, hupd, -, -⟩ := update_data_some sp fp fr oi now d
  have hnow : now - HOURS_TO_DISPLAY * 3600 ≤ now := by
    norm_num [HOURS_TO_DISPLAY]
  constructor
  · intro hlt
    have hex : ∃ a ∈ d.timestamps ++ [now],
        now - HOURS_TO_DISPLAY * 3600 ≤ a := ⟨now, by simp, hnow⟩
    obtain ⟨t1, r, hconsEq⟩ : ∃ t1 r, rest ++ [now] = t1 :: r := by
      cases rest <;> exact ⟨_, _, rfl⟩
    obtain ⟨start_idx, hsi, hdw, htr⟩ := trim_old_trim now
      { timestamps := d.timestamps ++ [now]
        spot_prices := d.spot_prices ++ [sp]
        futures_prices := d.futures_prices ++ [fp]
        premiums := d.premiums ++ [(fp - sp) / sp * 100]
        funding_rates := d.funding_rates ++ [vf]
        open_interest := d.open_interest ++ [vo]
        last_funding_rate := lf
        historical_data_loaded := d.historical_data_loaded }
      t0 t1 r (by simp [hts, hconsEq]) hlt hex
    rw [hupd, htr]
    refine ⟨hdw, ?_⟩
    intro hnil
    have : ∀ x ∈ d.timestamps ++ [now],
        (fun ts => decide (ts < now - HOURS_TO_DISPLAY * 3600)) x = true :=
      List.dropWhile_eq_nil_iff.mp (hdw ▸ hnil)
    have hcon := this now (by simp)
    simp at hcon
    omega
  · intro hge
    rw [hupd, trim_old_no_trim]
    intro a ha
    simp only [hts] at ha
    simp at ha
    omega

/-- C5 witness: the trim branch of the theorem at a concrete series. -/
theorem retention_trim_correct_witness :
    (update_data (some 2) (some 3) none none 20000
        { timestamps := [0, 100], spot_prices := [1, 1],
          futures_prices := [1, 1], premiums := [0, 0],
          funding_rates := [0, 0], open_interest := [0, 0],
          last_funding_rate := none,
          historical_data_loaded := true }).1.timestamps =
      (([0, 100] : List Int) ++ [20000]).dropWhile
        (fun ts => decide (ts < 20000 - HOURS_TO_DISPLAY * 3600)) ∧
    (update_data (some 2) (some 3) none none 20000
        { timestamps := [0, 100], spot_prices := [1, 1],
          futures_prices := [1, 1], premiums := [0, 0],
          funding_rates := [0, 0], open_interest := [0, 0],
          last_funding_rate := none,
          historical_data_loaded := true }).1.timestamps ≠ [] :=
  (retention_trim_correct 2 3 none none 20000 _ 0 [100] rfl).1
    (by norm_num [HOURS_TO_DISPLAY])

/-- The trim never changes the newest (last) sample of the aligned field
sequences. -/
theorem trim_old_getLast? (now : Int) (d : SymbolData)
    (hfr : d.funding_rates.length = d.timestamps.length)
    (hoi : d.open_interest.length = d.timestamps.length) :
    (trim_old now d).timestamps.getLast? = d.timestamps.getLast? ∧
    (trim_old now d).funding_rates.getLast? = d.funding_rates.getLast? ∧
    (trim_old now d).open_interest.getLast? = d.open_interest.getLast? := by
  rcases hts : d.timestamps with _ | ⟨t0, rest⟩
  · simp [trim_old, hts]
  rcases rest with _ | ⟨t1, r⟩
  · simp [trim_old, hts]
  by_cases hlt : t0 < now - HOURS_TO_DISPLAY * 3600
  · cases hf : (t0 :: t1 :: r).findIdx?
        (fun ts => decide (now - HOURS_TO_DISPLAY * 3600 ≤ ts)) with
    | none =>
      simp only [trim_old, hts, if_pos hlt, hf]
      simp
    | some s =>
      obtain ⟨-, hslen, -⟩ := findIdx?_drop_spec _ _ 0 s hf
      rw [Nat.sub_zero] at hslen
      have hsd : s < d.timestamps.length := by rw [hts]; exact hslen
      simp only [trim_old, hts, hf, if_pos hlt]
      refine ⟨?_, ?_, ?_⟩
      · rw [List.getLast?_drop, if_neg (by simp at hslen ⊢; omega)]
      · rw [List.getLast?_drop, if_neg (by omega)]
      · rw [List.getLast?_drop, if_neg (by omega)]
  · simp [trim_old, hts, hlt]

/-- C7: when both prices are available but the funding-rate
(respectively open-interest) fetch is not, a sample is still appended
(its timestamp is the newest) and its funding-rate (respectively
open-interest) field is the last recorded value when one exists and 0
otherwise. -/
theorem fallback_append_correct (sp fp : ℚ) (fr oi : Option ℚ) (now : Int)
    (d : SymbolData) (hwf : wellFormed d) :
    (update_data (some sp) (some fp) fr oi now d).1.timestamps.getLast? =
      some now ∧
    (fr = none →
      (update_data (some sp) (some fp) fr oi now d).1.funding_rates.getLast? =
        some (d.funding_rates.getLastD 0)) ∧
    (oi = none →
      (update_data (some sp) (some fp) fr oi now d).1.open_interest.getLast? =
        some (d.open_interest.getLastD 0)) := by
  obtain ⟨vf, vo, lf, hupd, hvf, hvo⟩ := update_data_some sp fp fr oi now d
  obtain ⟨-, -, -, h4, h5⟩ := hwf
  have hD := trim_old_getLast? now
    { timestamps := d.timestamps ++ [now]
      spot_prices := d.spot_prices ++ [sp]
      futures_prices := d.futures_prices ++ [fp]
      premiums := d.premiums ++ [(fp - sp) / sp * 100]
      funding_rates := d.funding_rates ++ [vf]
      open_interest := d.open_interest ++ [vo]
      last_funding_rate := lf
      historical_data_loaded := d.historical_data_loaded }
    (by simp [h4]) (by simp [h5])
  rw [hupd]
  refine ⟨?_, ?_, ?_⟩
  · rw [hD.1]; exact List.getLast?_concat _
  · intro h
    rw [hD.2.1, hvf h]
    exact List.getLast?_concat _
  · intro h
    rw [hD.2.2, hvo h]
    exact List.getLast?_concat _

/-- C7 witness: a live append with both auxiliary fetches failing on a
series that has prior recorded values. -/
theorem fallback_append_correct_witness :
    (update_data (some 2) (some 3) none none 200
        { timestamps := [100], spot_prices := [1], futures_prices := [1],
          premiums := [0], funding_rates := [7], open_interest := [9],
          last_funding_rate := none,
          historical_data_loaded := true }).1.funding_rates.getLast? =
      some (([(7 : ℚ)]).getLastD 0) :=
  (fallback_append_correct 2 3 none none 200
    { timestamps := [100], spot_prices := [1], futures_prices := [1],
      premiums := [0], funding_rates := [7], open_interest := [9],
      last_funding_rate := none, historical_data_loaded := true }
    ⟨rfl, rfl, rfl, rfl, rfl⟩).2.1 rfl

/-- Normal form of the live overwrite after backfill. -/
theorem overwriteLatest_def (fr oi : Option ℚ) (d : SymbolData) :
    overwriteLatest fr oi d = { d with
      last_funding_rate :=
        match fr with
        | some v => some v
        | none => d.last_funding_rate
      funding_rates :=
        match fr with
        | some v =>
            if !d.funding_rates.isEmpty then
              d.funding_rates.set (d.funding_rates.length - 1) (v * 100)
            else d.funding_rates
        | none => d.funding_rates
      open_interest :=
        match oi with
        | some w =>
            if !d.open_interest.isEmpty then
              d.open_interest.set (d.open_interest.length - 1) w
            else d.open_interest
        | none => d.open_interest } := by
  cases fr <;> cases oi <;> simp only [overwriteLatest] <;>
    repeat' first
      | rfl
      | split

/-- Elements of `l.set (l.length - 1) v` other than the last are those
of `l`, read through `getD`. -/
theorem getD_set_last_ne {α : Type} [Inhabited α] (l : List α) (v : α)
    (i : Nat) (hi : i + 1 < l.length) :
    (l.set (l.length - 1) v).getD i default = l.getD i default := by
  rw [List.getD_eq_getElem?_getD, List.getD_eq_getElem?_getD,
    List.getElem?_set_ne (by omega)]

/-- C8: the live overwrite after backfill changes only the last grid
point of the funding-rate and open-interest sequences; the timestamps,
spot prices, futures prices and premiums, and every earlier grid point
of the two overwritten sequences, are unchanged. -/
theorem overwrite_latest_frame (fr oi : Option ℚ) (d : SymbolData) :
    (overwriteLatest fr oi d).timestamps = d.timestamps ∧
    (overwriteLatest fr oi d).spot_prices = d.spot_prices ∧
    (overwriteLatest fr oi d).futures_prices = d.futures_prices ∧
    (overwriteLatest fr oi d).premiums = d.premiums ∧
    (overwriteLatest fr oi d).funding_rates.length = d.funding_rates.length ∧
    (overwriteLatest fr oi d).open_interest.length = d.open_interest.length ∧
    (∀ i, i + 1 < d.funding_rates.length →
      (overwriteLatest fr oi d).funding_rates.getD i 0 =
        d.funding_rates.getD i 0) ∧
    (∀ i, i + 1 < d.open_interest.length →
      (overwriteLatest fr oi d).open_interest.getD i 0 =
        d.open_interest.getD i 0) ∧
    (∀ v, fr = some v → d.funding_rates ≠ [] →
      (overwriteLatest fr oi d).funding_rates.getLast? = some (v * 100)) ∧
    (∀ v, oi = some v → d.open_interest ≠ [] →
      (overwriteLatest fr oi d).open_interest.getLast? = some v) := by
  rw [overwriteLatest_def]
  refine ⟨rfl, rfl, rfl, rfl, ?_, ?_, ?_, ?_, ?_, ?_⟩
  · cases fr <;> simp only <;> (try split) <;> simp [List.length_set]
  · cases oi <;> simp only <;> (try split) <;> simp [List.length_set]
  · intro i hi
    cases fr with
    | none => rfl
    | some v =>
        simp only
        split
        · exact getD_set_last_ne d.funding_rates (v * 100) i hi
        · rfl
  · intro i hi
    cases oi with
    | none => rfl
    | some w =>
        simp only
        split
        · exact getD_set_last_ne d.open_interest w i hi
        · rfl
  · intro v hv hne
    subst hv
    have hlen : 0 < d.funding_rates.length := List.length_pos.mpr hne
    simp only
    rw [if_pos (by simpa [List.isEmpty_iff] using hne)]
    rw [List.getLast?_eq_getElem?, List.length_set,
      List.getElem?_set_self (by omega)]
  · intro v hv hne
    subst hv
    have hlen : 0 < d.open_interest.length := List.length_pos.mpr hne
    simp only
    rw [if_pos (by simpa [List.isEmpty_iff] using hne)]
    rw [List.getLast?_eq_getElem?, List.length_set,
      List.getElem?_set_self (by omega)]

/-! Helper lemmas for the complete-sample invariant. -/

theorem trim_old_wellFormed (now : Int) (d : SymbolData)
    (h : wellFormed d) : wellFormed (trim_old now d) := by
  obtain ⟨h1, h2, h3, h4, h5⟩ := h
  rcases hts : d.timestamps with _ | ⟨t0, rest⟩
  · have hd : trim_old now d = d := by simp [trim_old, hts]
    rw [hd]; exact ⟨h1, h2, h3, h4, h5⟩
  rcases rest with _ | ⟨t1, r⟩
  · have hd : trim_old now d = d := by simp [trim_old, hts]
    rw [hd]; exact ⟨h1, h2, h3, h4, h5⟩
  by_cases hlt : t0 < now - HOURS_TO_DISPLAY * 3600
  · cases hf : (t0 :: t1 :: r).findIdx?
        (fun ts => decide (now - HOURS_TO_DISPLAY * 3600 ≤ ts)) with
    | none =>
      simp only [trim_old, hts, if_pos hlt, hf]
      exact ⟨h1, h2, h3, h4, h5⟩
    | some s =>
      simp only [trim_old, hts, if_pos hlt, hf]
      rw [hts] at h1 h2 h3 h4 h5
      refine ⟨?_, ?_, ?_, ?_, ?_⟩ <;> simp [List.length_drop, h1, h2, h3, h4, h5]
  · simp only [trim_old, hts, if_neg hlt]
    exact ⟨h1, h2, h3, h4, h5⟩

theorem update_data_wellFormed (sp fp fr oi : Option ℚ) (now : Int)
    (d : SymbolData) (h : wellFormed d) :
    wellFormed (update_data sp fp fr oi now d).1 := by
  rcases sp with _ | v
  · rw [update_data_price_unavailable none fp fr oi now d (Or.inl rfl)]
    exact h
  rcases fp with _ | w
  · rw [update_data_price_unavailable (some v) none fr oi now d (Or.inr rfl)]
    exact h
  obtain ⟨vf, vo, lf, hupd, -, -⟩ := update_data_some v w fr oi now d
  rw [hupd]
  apply trim_old_wellFormed
  obtain ⟨h1, h2, h3, h4, h5⟩ := h
  refine ⟨?_, ?_, ?_, ?_, ?_⟩ <;> simp [h1, h2, h3, h4, h5]

theorem applyTicks_wellFormed (ticks : List LiveTick) (d : SymbolData)
    (h : wellFormed d) : wellFormed (applyTicks ticks d) := by
  induction ticks generalizing d with
  | nil => exact h
  | cons t ts ih =>
      exact ih _ (update_data_wellFormed t.spot_price t.futures_price
        t.funding_rate t.open_interest t.now d h)

theorem alignOnGrid_length (grid src_ts : List Int) (src_vals : List ℚ) :
    (alignOnGrid grid src_ts src_vals).length = grid.length := by
  unfold alignOnGrid mapSeries
  split <;> simp

theorem overwriteLatest_lengths (fr oi : Option ℚ) (d : SymbolData) :
    (overwriteLatest fr oi d).funding_rates.length = d.funding_rates.length ∧
    (overwriteLatest fr oi d).open_interest.length = d.open_interest.length ∧
    (overwriteLatest fr oi d).timestamps = d.timestamps ∧
    (overwriteLatest fr oi d).spot_prices = d.spot_prices ∧
    (overwriteLatest fr oi d).futures_prices = d.futures_prices ∧
    (overwriteLatest fr oi d).premiums = d.premiums := by
  rw [overwriteLatest_def]
  refine ⟨?_, ?_, rfl, rfl, rfl, rfl⟩
  · cases fr <;> simp only <;> (try split) <;> simp [List.length_set]
  · cases oi <;> simp only <;> (try split) <;> simp [List.length_set]

theorem overwriteLatest_wellFormed (fr oi : Option ℚ) (d : SymbolData)
    (h : wellFormed d) : wellFormed (overwriteLatest fr oi d) := by
  obtain ⟨hl1, hl2, hot, hos, hof, hop⟩ := overwriteLatest_lengths fr oi d
  obtain ⟨h1, h2, h3, h4, h5⟩ := h
  exact ⟨by rw [hos, hot]; exact h1, by rw [hof, hot]; exact h2,
         by rw [hop, hot]; exact h3, by rw [hl1, hot]; exact h4,
         by rw [hl2, hot]; exact h5⟩

theorem load_historical_data_wellFormed
    (spot_data futures_data funding_data oi_data : List (Int × ℚ))
    (funding_rate open_interest : Option ℚ) (d : SymbolData)
    (h : wellFormed d) :
    wellFormed (load_historical_data spot_data futures_data funding_data
      oi_data funding_rate open_interest d).1 := by
  unfold load_historical_data
  split
  · exact h
  dsimp only
  split
  · have hwf1 : wellFormed
        { timestamps := (get_historical_klines spot_data futures_data).1
          spot_prices := (get_historical_klines spot_data futures_data).2.1
          futures_prices := (get_historical_klines spot_data futures_data).2.2.1
          premiums := (get_historical_klines spot_data futures_data).2.2.2
          funding_rates :=
            alignOnGrid (get_historical_klines spot_data futures_data).1
              (get_historical_funding_rates funding_data).1
              (get_historical_funding_rates funding_data).2
          open_interest :=
            alignOnGrid (get_historical_klines spot_data futures_data).1
              (get_historical_open_interest oi_data).1
              (get_historical_open_interest oi_data).2
          last_funding_rate := d.last_funding_rate
          historical_data_loaded := d.historical_data_loaded } := by
      refine ⟨?_, ?_, ?_, ?_, ?_⟩ <;>
        simp [alignOnGrid_length, get_historical_klines]
    exact overwriteLatest_wellFormed funding_rate open_interest _ hwf1
  · exact h

/-- C10: after a backfill attempt followed by any sequence of live
appends (with their retention trims), the six field sequences of a
tracked series keep equal lengths: every timestamp has a complete
sample. -/
theorem complete_samples_invariant
    (spot_data futures_data funding_data oi_data : List (Int × ℚ))
    (funding_rate open_interest : Option ℚ) (d : SymbolData)
    (hwf : wellFormed d) (ticks : List LiveTick) :
    wellFormed (applyTicks ticks
      (load_historical_data spot_data futures_data funding_data oi_data
        funding_rate open_interest d).1) :=
  applyTicks_wellFormed ticks _
    (load_historical_data_wellFormed spot_data futures_data funding_data
      oi_data funding_rate open_interest d hwf)

/-- C10 witness: a concrete backfill plus two live ticks (one complete,
one with failing auxiliary fetches) starting from the empty session
state. -/
theorem complete_samples_invariant_witness :
    wellFormed (applyTicks
      [{ spot_price := some 2, futures_price := some 3, funding_rate := none,
         open_interest := none, now := 60 },
       { spot_price := none, futures_price := some 3, funding_rate := some 1,
         open_interest := some 4, now := 120 }]
      (load_historical_data [(0, 5), (60, 6)] [(0, 7), (60, 8)] [(30, 1)] []
        (some 2) none
        { timestamps := [], spot_prices := [], futures_prices := [],
          premiums := [], funding_rates := [], open_interest := [],
          last_funding_rate := none,
          historical_data_loaded := false }).1) :=
  complete_samples_invariant [(0, 5), (60, 6)] [(0, 7), (60, 8)] [(30, 1)] []
    (some 2) none
    { timestamps := [], spot_prices := [], futures_prices := [],
      premiums := [], funding_rates := [], open_interest := [],
      last_funding_rate := none, historical_data_loaded := false }
    ⟨rfl, rfl, rfl, rfl, rfl⟩
    [{ spot_price := some 2, futures_price := some 3, funding_rate := none,
       open_interest := none, now := 60 },
     { spot_price := none, futures_price := some 3, funding_rate := some 1,
       open_interest := some 4, now := 120 }]

/-! The nearest-timestamp scan. -/

/-- The historical funding-rate fetch returns parallel timestamp and
value lists (justifying the equal-length hypothesis of the alignment
theorem). -/
theorem get_historical_funding_rates_length (data : List (Int × ℚ)) :
    (get_historical_funding_rates data).1.length =
      (get_historical_funding_rates data).2.length := by
  simp [get_historical_funding_rates]

/-- The historical open-interest fetch returns parallel timestamp and
value lists. -/
theorem get_historical_open_interest_length (data : List (Int × ℚ)) :
    (get_historical_open_interest data).1.length =
      (get_historical_open_interest data).2.length := by
  simp [get_historical_open_interest]

/-- Invariant of the Python nearest-scan loop: the final minimum never
exceeds the seed, it bounds every remaining difference, and the champion
either stays the seed or is the earliest strict improver among the
scanned elements. -/
theorem scanFromD_spec (ts : Int) :
    ∀ (rest : List Int) (i best m : Nat),
      (scanFromD ts best m i rest).2 ≤ m ∧
      (∀ j, j < rest.length →
        (scanFromD ts best m i rest).2 ≤ (ts - rest.getD j 0).natAbs) ∧
      (scanFromD ts best m i rest = (best, m) ∨
        ∃ j, j < rest.length ∧
          scanFromD ts best m i rest = (i + j, (ts - rest.getD j 0).natAbs) ∧
          (ts - rest.getD j 0).natAbs < m ∧
          ∀ j2, j2 < j →
            (ts - rest.getD j 0).natAbs < (ts - rest.getD j2 0).natAbs) := by
  intro rest
  induction rest with
  | nil =>
    intro i best m
    refine ⟨le_refl m, ?_, Or.inl rfl⟩
    intro j hj
    simp at hj
  | cons f t ih =>
    intro i best m
    by_cases hc : (ts - f).natAbs < m
    · have hstep : scanFromD ts best m i (f :: t) =
          scanFromD ts i ((ts - f).natAbs) (i + 1) t := by
        simp [scanFromD, hc]
      obtain ⟨ihA, ihB, ihC⟩ := ih (i + 1) i ((ts - f).natAbs)
      rw [hstep]
      refine ⟨le_trans ihA (le_of_lt hc), ?_, ?_⟩
      · intro j hj
        cases j with
        | zero => simpa using ihA
        | succ j2 =>
          have hb := ihB j2 (by simpa using hj)
          simpa using hb
      · rcases ihC with h | ⟨j1, hj1, heq, hlt2, hall⟩
        · refine Or.inr ⟨0, by simp, ?_, by simpa using hc, ?_⟩
          · simpa using h
          · intro j2 hj2
            exact absurd hj2 (Nat.not_lt_zero j2)
        · refine Or.inr ⟨j1 + 1, by simpa using hj1, ?_, ?_, ?_⟩
          · have hi : i + (j1 + 1) = (i + 1) + j1 := by omega
            rw [hi]
            simpa using heq
          · have := lt_trans hlt2 hc
            simpa using this
          · intro j2 hj2
            cases j2 with
            | zero => simpa using hlt2
            | succ j3 =>
              have := hall j3 (by omega)
              simpa using this
    · have hstep : scanFromD ts best m i (f :: t) =
          scanFromD ts best m (i + 1) t := by
        simp [scanFromD, hc]
      obtain ⟨ihA, ihB, ihC⟩ := ih (i + 1) best m
      rw [hstep]
      refine ⟨ihA, ?_, ?_⟩
      · intro j hj
        cases j with
        | zero =>
          have := le_trans ihA (not_lt.mp hc)
          simpa using this
        | succ j2 =>
          have hb := ihB j2 (by simpa using hj)
          simpa using hb
      · rcases ihC with h | ⟨j1, hj1, heq, hlt2, hall⟩
        · exact Or.inl h
        · refine Or.inr ⟨j1 + 1, by simpa using hj1, ?_, ?_, ?_⟩
          · have hi : i + (j1 + 1) = (i + 1) + j1 := by omega
            rw [hi]
            simpa using heq
          · simpa using hlt2
          · intro j2 hj2
            cases j2 with
            | zero =>
              have := lt_of_lt_of_le hlt2 (not_lt.mp hc)
              simpa using this
            | succ j3 =>
              have := hall j3 (by omega)
              simpa using this

/-- The index picked by the Python scan is in range, attains the minimum
absolute time difference, and every strictly earlier index is strictly
worse (first-encountered tie-breaking). -/
theorem closestIdx_spec (ts : Int) (fts : List Int) (hne : fts ≠ []) :
    closestIdx ts fts < fts.length ∧
    (∀ j, j < fts.length →
      (ts - fts.getD (closestIdx ts fts) 0).natAbs ≤
        (ts - fts.getD j 0).natAbs) ∧
    (∀ j, j < closestIdx ts fts →
      (ts - fts.getD (closestIdx ts fts) 0).natAbs <
        (ts - fts.getD j 0).natAbs) := by
  cases fts with
  | nil => exact absurd rfl hne
  | cons f0 rest =>
    obtain ⟨hA, hB, hC⟩ := scanFromD_spec ts rest 1 0 ((ts - f0).natAbs)
    rcases hC with h | ⟨j, hj, heq, hlt, hall⟩
    · have h1 : closestIdx ts (f0 :: rest) = 0 := by simp [closestIdx, h]
      have h2 : (scanFromD ts 0 ((ts - f0).natAbs) 1 rest).2 =
          (ts - f0).natAbs := by rw [h]
      rw [h1]
      refine ⟨by simp, ?_, ?_⟩
      · intro j2 hj2
        cases j2 with
        | zero => exact le_refl _
        | succ j3 =>
          have hb := hB j3 (by simpa using hj2)
          rw [h2] at hb
          simpa using hb
      · intro j2 hj2
        exact absurd hj2 (Nat.not_lt_zero j2)
    · have h1 : closestIdx ts (f0 :: rest) = 1 + j := by
        simp [closestIdx, heq]
      have hv : (f0 :: rest).getD (1 + j) 0 = rest.getD j 0 := by
        rw [Nat.add_comm]
        exact List.getD_cons_succ
      rw [h1, hv]
      refine ⟨by simp; omega, ?_, ?_⟩
      · intro j2 hj2
        cases j2 with
        | zero => simpa using le_of_lt hlt
        | succ j3 =>
          have hb := hB j3 (by simpa using hj2)
          rw [heq] at hb
          simpa using hb
      · intro j2 hj2
        cases j2 with
        | zero => simpa using hlt
        | succ j3 =>
          have := hall j3 (by omega)
          simpa using this

/-- C4: with a non-empty primary grid, the backfill alignment assigns to
each grid timestamp the secondary sample whose timestamp has the
smallest absolute difference, ties broken in favour of the
earliest-scanned sample; an empty secondary series yields 0 at every
grid point. -/
theorem nearest_alignment_correct (grid src_ts : List Int)
    (src_vals : List ℚ) (hlen : src_ts.length = src_vals.length) :
    (alignOnGrid grid src_ts src_vals).length = grid.length ∧
    (src_vals = [] →
      alignOnGrid grid src_ts src_vals = List.replicate grid.length 0) ∧
    (src_vals ≠ [] → ∀ k, k < grid.length →
      ∃ i, i < src_ts.length ∧
        (alignOnGrid grid src_ts src_vals).getD k 0 = src_vals.getD i 0 ∧
        (∀ j, j < src_ts.length →
          (grid.getD k 0 - src_ts.getD i 0).natAbs ≤
            (grid.getD k 0 - src_ts.getD j 0).natAbs) ∧
        (∀ j, j < i →
          (grid.getD k 0 - src_ts.getD i 0).natAbs <
            (grid.getD k 0 - src_ts.getD j 0).natAbs)) := by
  refine ⟨alignOnGrid_length grid src_ts src_vals, ?_, ?_⟩
  · intro h
    simp [alignOnGrid, h]
  · intro hne k hk
    have hts_ne : src_ts ≠ [] := by
      intro h0
      rw [h0] at hlen
      exact hne (List.eq_nil_of_length_eq_zero hlen.symm)
    have hgd : grid.getD k 0 = grid[k] := List.getD_eq_getElem grid 0 hk
    obtain ⟨hA, hB, hC⟩ := closestIdx_spec (grid.getD k 0) src_ts hts_ne
    refine ⟨closestIdx (grid.getD k 0) src_ts, hA, ?_, hB, hC⟩
    have hb : (!src_vals.isEmpty) = true := by
      simpa [List.isEmpty_iff] using hne
    have hk2 : k < (grid.map (fun ts =>
        if closestIdx ts src_ts < src_vals.length then
          src_vals.getD (closestIdx ts src_ts) 0
        else 0)).length := by simpa using hk
    unfold alignOnGrid mapSeries
    rw [if_pos hb, List.getD_eq_getElem _ _ hk2, List.getElem_map, ← hgd,
      if_pos (hlen ▸ hA)]

/-- C4 witness: a three-point grid against a single-sample source: the
sample wins at every grid point. -/
theorem nearest_alignment_correct_witness :
    ∃ i, i < ([(1 : Int)]).length ∧
      (alignOnGrid [0, 60, 120] [1] [10]).getD 0 0 = ([(10 : ℚ)]).getD i 0 ∧
      (∀ j, j < ([(1 : Int)]).length →
        (([(0 : Int), 60, 120]).getD 0 0 - ([(1 : Int)]).getD i 0).natAbs ≤
          (([(0 : Int), 60, 120]).getD 0 0 - ([(1 : Int)]).getD j 0).natAbs) ∧
      (∀ j, j < i →
        (([(0 : Int), 60, 120]).getD 0 0 - ([(1 : Int)]).getD i 0).natAbs <
          (([(0 : Int), 60, 120]).getD 0 0 - ([(1 : Int)]).getD j 0).natAbs) :=
  (nearest_alignment_correct [0, 60, 120] [1] [10] rfl).2.2 (by simp) 0
    (by simp)
end Gembot
